import Mathlib

/-!
Verification development for the HoroskopySlackScraper repository
(`src/main.py`).  The core logic of that program is a small data pipeline:

* `format_compatibility_data` turns the raw per-sign scraped text lists into a
  pandas DataFrame indexed by the fixed percentage labels, with one column per
  zodiac sign (capitalized), each cell holding the comma-joined person names
  registered under the signs named in the raw cell;
* `_remove_diacritics` strips combining marks (NFD decompose, drop `Mn`);
* `generate_relationship_summary` scans the matrix at a target percentage and
  derives deduplicated, canonically sorted person-to-person pairs, aggregates
  them by their lexicographically first member and renders one text line per
  anchor person.

The definitions below are a shallow embedding of those functions.  Python
strings are Lean `String`s; Python `dict`s (which preserve insertion order)
are association lists; Python `set`s are lists deduplicated on insertion, so
that iteration order in the model is insertion order (the one place where the
real interpreter's set iteration order differs is discussed at the relevant
claim).  A Python function that can raise is embedded with `Except`.
-/

/-- Lowercase conversion for one character, as Python `str.lower` acts on the
alphabet this program processes: ASCII letters plus the uppercase accented
letters of the Czech alphabet; every other character is left unchanged. -/
def charLower (c : Char) : Char :=
  if 'A' ≤ c ∧ c ≤ 'Z' then Char.ofNat (c.toNat + 32)
  else
    match c with
    | 'Á' => 'á'
    | 'Č' => 'č'
    | 'Ď' => 'ď'
    | 'É' => 'é'
    | 'Ě' => 'ě'
    | 'Í' => 'í'
    | 'Ň' => 'ň'
    | 'Ó' => 'ó'
    | 'Ř' => 'ř'
    | 'Š' => 'š'
    | 'Ť' => 'ť'
    | 'Ú' => 'ú'
    | 'Ů' => 'ů'
    | 'Ý' => 'ý'
    | 'Ž' => 'ž'
    | _ => c

/-- Uppercase conversion for one character (Python `str.upper` /
`str.capitalize` on the first character), on the same alphabet as
`charLower`. -/
def charUpper (c : Char) : Char :=
  if 'a' ≤ c ∧ c ≤ 'z' then Char.ofNat (c.toNat - 32)
  else
    match c with
    | 'á' => 'Á'
    | 'č' => 'Č'
    | 'ď' => 'Ď'
    | 'é' => 'É'
    | 'ě' => 'Ě'
    | 'í' => 'Í'
    | 'ň' => 'Ň'
    | 'ó' => 'Ó'
    | 'ř' => 'Ř'
    | 'š' => 'Š'
    | 'ť' => 'Ť'
    | 'ú' => 'Ú'
    | 'ů' => 'Ů'
    | 'ý' => 'Ý'
    | 'ž' => 'Ž'
    | _ => c

/-- Python `str.strip()` (no argument): remove whitespace from both ends. -/
def pyStrip (s : String) : String :=
  ⟨((s.data.dropWhile Char.isWhitespace).reverse.dropWhile Char.isWhitespace).reverse⟩

/-- Python `str.lower()`. -/
def pyLower (s : String) : String :=
  ⟨s.data.map charLower⟩

/-- Python `str.capitalize()`: first character uppercased, the rest
lowercased; the empty string is returned unchanged. -/
def pyCapitalize (s : String) : String :=
  match s.data with
  | [] => ""
  | c :: cs => ⟨charUpper c :: cs.map charLower⟩

/-- `_remove_diacritics` from `main.py`: NFD-normalize and drop all
combining marks (`Mn`).  On the precomposed Latin letters that occur in the
program's Czech data this amounts to replacing each accented letter by its
base letter, which is what this character table does; characters outside the
table carry no combining mark and are left unchanged. -/
def charStripMark (c : Char) : Char :=
  match c with
  | 'á' => 'a'
  | 'č' => 'c'
  | 'ď' => 'd'
  | 'é' => 'e'
  | 'ě' => 'e'
  | 'í' => 'i'
  | 'ň' => 'n'
  | 'ó' => 'o'
  | 'ř' => 'r'
  | 'š' => 's'
  | 'ť' => 't'
  | 'ú' => 'u'
  | 'ů' => 'u'
  | 'ý' => 'y'
  | 'ž' => 'z'
  | 'Á' => 'A'
  | 'Č' => 'C'
  | 'Ď' => 'D'
  | 'É' => 'E'
  | 'Ě' => 'E'
  | 'Í' => 'I'
  | 'Ň' => 'N'
  | 'Ó' => 'O'
  | 'Ř' => 'R'
  | 'Š' => 'S'
  | 'Ť' => 'T'
  | 'Ú' => 'U'
  | 'Ů' => 'U'
  | 'Ý' => 'Y'
  | 'Ž' => 'Z'
  | _ => c

/-- `_remove_diacritics(text)` from `main.py` (see `charStripMark`). -/
def removeDiacritics (s : String) : String :=
  ⟨s.data.map charStripMark⟩

/-- Helper for `splitComma`: accumulate the current piece (reversed). -/
def splitCommaAux : List Char → List Char → List String
  | [], acc => [⟨acc.reverse⟩]
  | c :: cs, acc =>
    if c = ',' then ⟨acc.reverse⟩ :: splitCommaAux cs []
    else splitCommaAux cs (c :: acc)

/-- Python `s.split(',')`: split on every comma; `"".split(',') == [""]`. -/
def splitComma (s : String) : List String :=
  splitCommaAux s.data []

/-- Python `sep.join(parts)`. -/
def joinSep (sep : String) : List String → String
  | [] => ""
  | [x] => x
  | x :: y :: xs => x ++ sep ++ joinSep sep (y :: xs)

/-- Python `s[:-1]`: all but the last character (empty string stays empty). -/
def strDropLast (s : String) : String :=
  ⟨s.data.dropLast⟩

/-- Numeric value of a decimal digit character. -/
def digitVal (c : Char) : Nat :=
  c.toNat - 48

/-- Continue parsing a Python decimal digit run: digits with single
underscores allowed between digits (`int("1_0") == 10`). -/
def parseDigitsRest : List Char → Nat → Option Nat
  | [], acc => some acc
  | c :: cs, acc =>
    if c.isDigit then parseDigitsRest cs (acc * 10 + digitVal c)
    else
      if c = '_' then
        match cs with
        | c2 :: cs2 => if c2.isDigit then parseDigitsRest cs2 (acc * 10 + digitVal c2) else none
        | [] => none
      else none

/-- Parse a nonempty Python decimal digit run (must start with a digit). -/
def parseDigits : List Char → Option Nat
  | [] => none
  | c :: cs => if c.isDigit then parseDigitsRest cs (digitVal c) else none

/-- Python `int(s)` on decimal text: surrounding whitespace is stripped, an
optional single `+`/`-` sign is consumed, the rest must be a nonempty digit
run (underscores allowed between digits).  `none` models the `ValueError`
that `int` raises on any other shape. -/
def pyInt (s : String) : Option Int :=
  match (pyStrip s).data with
  | '+' :: rest => (parseDigits rest).map (fun n => (n : Int))
  | '-' :: rest => (parseDigits rest).map (fun n => -(n : Int))
  | rest => (parseDigits rest).map (fun n => (n : Int))

/-- Code-point lexicographic `≤` on character lists, as Python compares
strings. -/
def lexLe : List Char → List Char → Bool
  | [], _ => true
  | _ :: _, [] => false
  | a :: as, b :: bs =>
    if a.toNat < b.toNat then true
    else if b.toNat < a.toNat then false
    else lexLe as bs

/-- Code-point lexicographic `≤` on strings (Python `<=`). -/
def strLe (a b : String) : Bool :=
  lexLe a.data b.data

/-- Insert into a `strLe`-sorted list, keeping ties stable. -/
def insertSorted (x : String) : List String → List String
  | [] => [x]
  | y :: ys => if strLe x y then x :: y :: ys else y :: insertSorted x ys

/-- Python `sorted` on a list of strings (ascending, code-point order). -/
def sortStrings : List String → List String
  | [] => []
  | x :: xs => insertSorted x (sortStrings xs)

/-- First-match association-list lookup; Python dictionaries have unique
keys, so this is `d[k]` / `k in d` for the dictionaries this program uses. -/
def lookupList {α : Type} (k : String) : List (String × α) → Option α
  | [] => none
  | (k2, v) :: rest => if k2 = k then some v else lookupList k rest

/-- Python `d[k] = v` on a dict: overwrite in place if the key exists
(keeping its original position), otherwise append a new entry. -/
def dictSet {α : Type} (d : List (String × α)) (k : String) (v : α) : List (String × α) :=
  match d with
  | [] => [(k, v)]
  | (k2, v2) :: rest => if k2 = k then (k2, v) :: rest else (k2, v2) :: dictSet rest k v

/-- The fixed sign list `ZODIACS` from `main.py`. -/
def ZODIACS : List String :=
  ["beran", "lev", "strelec", "byk", "panna", "kozoroh",
   "blizenci", "vahy", "vodnar", "rak", "stir", "ryby"]

/-- The fixed row-label list `PERCENTAGES` from `main.py`. -/
def PERCENTAGES : List String :=
  ["100%", "80%", "60%", "40%", "20%", "0%", "-20%", "-40%", "-60%", "-80%", "-100%"]

/-- The DataFrame built by `format_compatibility_data` after
`set_index("Percent")`: the index is the percentage-label list and `cols`
are the per-sign columns (name, cells) in insertion order, cells positionally
aligned with the index. -/
structure DataFrame where
  index : List String
  cols : List (String × List String)
deriving DecidableEq

/-- Inner loop of `format_compatibility_data` over the comma-split parts of
one raw cell: strip and lowercase each part, look it up in `names_zodiacs`,
and keep the comma-joined person-name group when the key is present with a
nonempty list. -/
def formatTokens (nz : List (String × List String)) : List String → List String
  | [] => []
  | p :: ps =>
    match lookupList (pyLower (pyStrip p)) nz with
    | some ns => if ns = [] then formatTokens nz ps else joinSep ", " ns :: formatTokens nz ps
    | none => formatTokens nz ps

/-- One formatted cell of `format_compatibility_data`:
`", ".join(names)` over the matched groups of the comma-split raw value. -/
def formatCell (nz : List (String × List String)) (value : String) : String :=
  joinSep ", " (formatTokens nz (splitComma value))

/-- The column-building loop of `format_compatibility_data`:
`df_data[sign.capitalize()] = formatted_values` for each scraped sign. -/
def buildCols (nz : List (String × List String)) (acc : List (String × List String)) :
    List (String × List String) → List (String × List String)
  | [] => acc
  | (sign, values) :: rest =>
    buildCols nz (dictSet acc (pyCapitalize sign) (values.map (formatCell nz))) rest

/-- `format_compatibility_data(horoscope_data, percentages, names_zodiacs)`
from `main.py`: the `Percent` column becomes the index and each scraped sign
contributes one column keyed by its capitalized identifier. -/
def format_compatibility_data (horoscope_data : List (String × List String))
    (percentages : List String) (nz : List (String × List String)) : DataFrame :=
  { index := percentages, cols := buildCols nz [] horoscope_data }

/-- The `relationships_dict` of `generate_relationship_summary`: a Python
dict from person name to a set of related names, modeled as an
insertion-ordered association list whose values are insertion-ordered
duplicate-free lists. -/
abbrev Dict := List (String × List String)

/-- `[n.strip() for n in related_names.split(',') if n]`: comma-split one
cell, drop the pieces that are empty before stripping, strip the rest. -/
def parseRelated (cell : String) : List String :=
  ((splitComma cell).filter (fun n => n != "")).map pyStrip

/-- Add one element to a Python set modeled as a duplicate-free list:
no-op when present, append when absent. -/
def setAdd (s : List String) (x : String) : List String :=
  if x ∈ s then s else s ++ [x]

/-- Python `set.update(xs)`: add the elements of `xs` in order. -/
def setUpdate (s : List String) : List String → List String
  | [] => s
  | x :: xs => setUpdate (setAdd s x) xs

/-- `relationships_dict[name] = set()` (when absent) followed by
`relationships_dict[name].update(xs)`: new keys are appended at the end,
existing keys are updated in place. -/
def dictUpdate (d : Dict) (k : String) (xs : List String) : Dict :=
  match d with
  | [] => [(k, setUpdate [] xs)]
  | (k2, s) :: rest => if k2 = k then (k2, setUpdate s xs) :: rest else (k2, s) :: dictUpdate rest k xs

/-- `int(percent[:-1])` from `generate_relationship_summary`: drop the
label's last character and parse the rest as a Python integer. -/
def bandParse (label : String) : Option Int :=
  pyInt (strDropLast label)

/-- The row scan of `generate_relationship_summary` for one person: walk the
`(percent, related_names)` items of one column, parse each percentage label
(a parse failure is the uncaught `ValueError`), and on the target band parse
the cell, remove the first occurrence of the person's own name
(`list.remove`), and record the remainder when nonempty. -/
def scanName (pct : Int) (name : String) : List (String × String) → Dict → Except String Dict
  | [], d => .ok d
  | (percent, related) :: rest, d =>
    match bandParse percent with
    | none => .error ("invalid literal for int(): " ++ percent)
    | some v =>
      let lst := (parseRelated related).erase name
      let d2 := if v = pct then (if lst = [] then d else dictUpdate d name lst) else d
      scanName pct name rest d2

/-- The loop of `generate_relationship_summary` over one sign's person
list: each person scans the whole column. -/
def scanNames (pct : Int) (rows : List (String × String)) : List String → Dict → Except String Dict
  | [], d => .ok d
  | n :: ns, d =>
    match scanName pct n rows d with
    | .error e => .error e
    | .ok d2 => scanNames pct rows ns d2

/-- `_remove_diacritics(zodiac).capitalize()`: the column key a registry
sign is looked up under. -/
def colKey (zodiac : String) : String :=
  pyCapitalize (removeDiacritics zodiac)

/-- The outer loop of `generate_relationship_summary` over
`names_zodiacs.items()`: signs whose column key is absent from the matrix
are skipped; otherwise the sign's people scan the column's
`(percent, cell)` items (the pandas Series pairs the index labels with the
column's cells positionally). -/
def buildDict (df : DataFrame) (pct : Int) : List (String × List String) → Dict → Except String Dict
  | [], d => .ok d
  | (zodiac, names) :: rest, d =>
    match lookupList (colKey zodiac) df.cols with
    | some cells =>
      match scanNames pct (df.index.zip cells) names d with
      | .error e => .error e
      | .ok d2 => buildDict df pct rest d2
    | none => buildDict df pct rest d

/-- Membership-tested insertion into the `unique_relationships` set,
modeled as a duplicate-free list in insertion order. -/
def insertPair (acc : List (String × String)) (p : String × String) : List (String × String) :=
  if p ∈ acc then acc else acc ++ [p]

/-- `tuple(sorted([a, b]))`: the canonical (lexicographically sorted)
form of an unordered pair. -/
def sortPair (a b : String) : String × String :=
  if strLe a b then (a, b) else (b, a)

/-- Inner loop of the `unique_relationships` construction: insert the
canonical pair of `name` with every related person. -/
def insertPairs (name : String) (acc : List (String × String)) : List String → List (String × String)
  | [] => acc
  | b :: bs => insertPairs name (insertPair acc (sortPair name b)) bs

/-- Outer loop of the `unique_relationships` construction over
`relationships_dict.items()`. -/
def uniqueAux (acc : List (String × String)) : Dict → List (String × String)
  | [] => acc
  | (k, s) :: rest => uniqueAux (insertPairs k acc s) rest

/-- The `unique_relationships` set of `generate_relationship_summary`. -/
def uniqueRelationships (d : Dict) : List (String × String) :=
  uniqueAux [] d

/-- The `aggregated_relationships` loop: group each canonical pair under its
first component, collecting the second components into a set. -/
def aggregateAux (acc : Dict) : List (String × String) → Dict
  | [] => acc
  | (a, b) :: rest => aggregateAux (dictUpdate acc a [b]) rest

/-- `aggregated_relationships` of `generate_relationship_summary`. -/
def aggregateRelationships (pairs : List (String × String)) : Dict :=
  aggregateAux [] pairs

/-- One summary line: `'- ...'` for the enemy relationship type,
`'+ ...'` otherwise, with the partner set sorted and comma-joined. -/
def renderLine (rtype name : String) (related : List String) : String :=
  (if rtype = "nepřítel" then "- " else "+ ") ++ name ++ " je s " ++
    joinSep ", " (sortStrings related) ++ " dnes " ++ rtype ++ "!"

/-- `"\n".join(summary_lines)` over the aggregated groups in order. -/
def renderSummary (agg : Dict) (rtype : String) : String :=
  joinSep "\n" (agg.map (fun e => renderLine rtype e.1 e.2))

/-- The deduplicated canonical pair list the extractor's output is built
from: `relationships_dict` followed by `unique_relationships`.  A `.error`
is the uncaught `ValueError` from a malformed percentage label. -/
def pairsOf (df : DataFrame) (nz : List (String × List String)) (pct : Int) :
    Except String (List (String × String)) :=
  match buildDict df pct nz [] with
  | .error e => .error e
  | .ok d => .ok (uniqueRelationships d)

/-- `generate_relationship_summary(df, names_zodiacs, percentage,
relationship_type)` from `main.py`. -/
def generate_relationship_summary (df : DataFrame) (nz : List (String × List String))
    (percentage : Int) (rtype : String) : Except String String :=
  match pairsOf df nz percentage with
  | .error e => .error e
  | .ok pairs => .ok (renderSummary (aggregateRelationships pairs) rtype)

/-- `true` exactly on `.error`. -/
def isError {ε α : Type} : Except ε α → Bool
  | .error _ => true
  | .ok _ => false

/-- Modelled from the spec's words (§3, §7): a label "parses as a signed
integer percentage" when it is a signed decimal integer followed by the
percent sign.  Used only to state claims about malformed labels; the
source-side band matching is `bandParse`. -/
def isPercentLabel (s : String) : Bool :=
  match s.data.getLast? with
  | some c => if c = '%' then (pyInt (strDropLast s)).isSome else false
  | none => false

/-- Modelled from the spec's words (§4.2): the matched name groups of a
token list — each token is trimmed, lower-cased and looked up in the
registry, and a found, nonempty person list contributes its comma-joined
group, in token order. -/
def specMatchedGroups (nz : List (String × List String)) (tokens : List String) : List String :=
  tokens.filterMap (fun tok =>
    match lookupList (pyLower (pyStrip tok)) nz with
    | some ns => if ns = [] then none else some (joinSep ", " ns)
    | none => none)

/-- Modelled from the spec's words (§4.2): "The final cell value is the
comma-joined concatenation of all matched name groups, in token order." -/
def specCellValue (nz : List (String × List String)) (raw : String) : String :=
  joinSep ", " (specMatchedGroups nz (splitComma raw))

/-- No person's name occurs more than once in the parsed token list of any
cell that person's sign scans: the side condition under which the single
`list.remove` call suffices to delete a person from their own related-name
set. -/
def noDupTokens (df : DataFrame) (nz : List (String × List String)) : Bool :=
  nz.all (fun zn =>
    ((lookupList (colKey zn.1) df.cols).getD []).all (fun cell =>
      zn.2.all (fun name => decide ((parseRelated cell).count name ≤ 1))))

deriving instance DecidableEq for Except

/-! Concrete inputs used by the scenario claims and the witnesses below. -/

/-- The spec's scenario Fetcher output: sign `beran` has `"lev, strelec"` at
the 100% band and nothing elsewhere. -/
def hd1 : List (String × List String) :=
  [("beran", ["lev, strelec", "", "", "", "", "", "", "", "", "", ""])]

/-- The spec's scenario registry: beran→Alice, lev→Bob, strelec→Cara,Dan. -/
def nz1 : List (String × List String) :=
  [("beran", ["Alice"]), ("lev", ["Bob"]), ("strelec", ["Cara", "Dan"])]

/-- The scenario matrix. -/
def df1 : DataFrame := format_compatibility_data hd1 PERCENTAGES nz1

/-- A matrix whose `Beran` cell at the 100% band repeats Alice's name. -/
def df2 : DataFrame := ⟨["100%"], [("Beran", ["Alice, Alice"])]⟩

/-- A registry with Alice alone under beran. -/
def nz2 : List (String × List String) := [("beran", ["Alice"])]

/-- A matrix whose single row label `"42"` is not a percentage label. -/
def df4 : DataFrame := ⟨["42"], [("Beran", ["Bob"])]⟩

/-- A one-person registry for the malformed-label scenarios. -/
def nz4 : List (String × List String) := [("beran", ["Alice"])]

/-- A matrix whose row label `"abc%"` has no integer before the sign. -/
def dfB : DataFrame := ⟨["abc%"], [("Beran", ["Bob"])]⟩

/-- A matrix producing two independent friend pairs at the 100% band. -/
def df5 : DataFrame := ⟨["100%"], [("Beran", ["Bob"]), ("Byk", ["Dan"])]⟩

/-- A registry producing the two anchors Alice and Cara. -/
def nz5 : List (String × List String) :=
  [("beran", ["Alice"]), ("lev", ["Bob"]), ("byk", ["Cara"]), ("panna", ["Dan"])]

/-- A registry keyed by the diacritic-free lower-case sign form `byk`. -/
def nzX : List (String × List String) := [("byk", ["X"])]

/-- C1: on the spec's scenario input (beran's 100% raw cell `"lev, strelec"`;
registry beran→[Alice], lev→[Bob], strelec→[Cara,Dan]; no sign listing
anyone back), the matrix cell `[100%][Beran]` is `"Bob, Cara, Dan"`, the
100% extractor derives exactly the pairs (Alice,Bob), (Alice,Cara),
(Alice,Dan), and renders the single line
`+ Alice je s Bob, Cara, Dan dnes kamarád!`. -/
theorem claim_C1 :
    df1.index = PERCENTAGES ∧
    lookupList "Beran" df1.cols = some ("Bob, Cara, Dan" :: List.replicate 10 "") ∧
    pairsOf df1 nz1 100 = .ok [("Alice", "Bob"), ("Alice", "Cara"), ("Alice", "Dan")] ∧
    generate_relationship_summary df1 nz1 100 "kamarád" =
      .ok "+ Alice je s Bob, Cara, Dan dnes kamarád!" := by
  decide

/-- C2 (counterexample): when the cell of Alice's own sign lists her name
twice, the single `list.remove` deletes only one occurrence, so the
extractor records the self-pair (Alice, Alice) and even renders it. -/
theorem claim_C2_counter :
    pairsOf df2 nz2 100 = .ok [("Alice", "Alice")] ∧
    generate_relationship_summary df2 nz2 100 "kamarád" =
      .ok "+ Alice je s Alice dnes kamarád!" := by
  decide

/-- C4 (counterexample): the row label `"42"` does not parse as a signed
integer percentage, yet the extractor raises nothing: `int("42"[:-1])`
silently yields 4, so the label matches the target band 4 and does not
match its own written value 42. -/
theorem claim_C4_counter :
    isPercentLabel "42" = false ∧
    generate_relationship_summary df4 nz4 4 "kamarád" =
      .ok "+ Alice je s Bob dnes kamarád!" ∧
    generate_relationship_summary df4 nz4 42 "kamarád" = .ok "" := by
  decide

/-- C5 (supporting evaluation for the code_bug record): the failing input
produces two anchor lines; in the real interpreter their order comes from
iterating the built-in set `unique_relationships`, whose order across
processes depends on the string hash seed, so the model fixes insertion
order to state the content. -/
theorem claim_C5_eval :
    generate_relationship_summary df5 nz5 100 "kamarád" =
      .ok "+ Alice je s Bob dnes kamarád!\n+ Cara je s Dan dnes kamarád!" := by
  decide

/-! Ordering facts about the code-point lexicographic comparison. -/

/-- `lexLe` is total. -/
theorem lexLe_total (as : List Char) : ∀ bs : List Char,
    lexLe as bs = true ∨ lexLe bs as = true := by
  induction as with
  | nil => intro bs; exact Or.inl rfl
  | cons a as ih =>
    intro bs
    cases bs with
    | nil => exact Or.inr rfl
    | cons b bs =>
      simp only [lexLe]
      rcases Nat.lt_trichotomy a.toNat b.toNat with h | h | h
      · simp [h]
      · simp only [h, Nat.lt_irrefl, if_false]
        exact ih bs
      · simp [h, Nat.lt_asymm h]

/-- `lexLe` is antisymmetric. -/
theorem lexLe_antisymm (as : List Char) : ∀ bs : List Char,
    lexLe as bs = true → lexLe bs as = true → as = bs := by
  induction as with
  | nil =>
    intro bs _ h2
    cases bs with
    | nil => rfl
    | cons b bs => exact absurd h2 (by simp [lexLe])
  | cons a as ih =>
    intro bs h1 h2
    cases bs with
    | nil => exact absurd h1 (by simp [lexLe])
    | cons b bs =>
      simp only [lexLe] at h1 h2
      rcases Nat.lt_trichotomy a.toNat b.toNat with h | h | h
      · rw [if_neg (Nat.lt_asymm h), if_pos h] at h2
        exact absurd h2 (by simp)
      · have hab : a = b := Char.eq_of_val_eq (UInt32.eq_of_val_eq (Fin.eq_of_val_eq h))
        subst hab
        simp only [Nat.lt_irrefl, if_false] at h1 h2
        rw [ih bs h1 h2]
      · rw [if_neg (Nat.lt_asymm h), if_pos h] at h1
        exact absurd h1 (by simp)

/-- `strLe` is total. -/
theorem strLe_total (a b : String) : strLe a b = true ∨ strLe b a = true :=
  lexLe_total a.data b.data

/-- `strLe` is antisymmetric. -/
theorem strLe_antisymm (a b : String) (h1 : strLe a b = true) (h2 : strLe b a = true) :
    a = b := by
  cases a with
  | mk da =>
    cases b with
    | mk db =>
      have := lexLe_antisymm da db h1 h2
      simp [this]

/-- A canonical pair is sorted. -/
theorem sortPair_le (a b : String) : strLe (sortPair a b).1 (sortPair a b).2 = true := by
  cases h : strLe a b with
  | true => simp [sortPair, h]
  | false =>
    simp only [sortPair, h, Bool.false_eq_true, if_false]
    rcases strLe_total a b with h1 | h1
    · rw [h] at h1; exact absurd h1 (by simp)
    · exact h1

/-- A canonical pair is diagonal only when both inputs coincide with the
diagonal value. -/
theorem sortPair_eq_diag (a b p : String) (h : sortPair a b = (p, p)) : a = p ∧ b = p := by
  unfold sortPair at h
  split at h
  · exact ⟨by simpa using congrArg Prod.fst h, by simpa using congrArg Prod.snd h⟩
  · exact ⟨by simpa using congrArg Prod.snd h, by simpa using congrArg Prod.fst h⟩

/-! Membership and duplicate-freeness facts about the set and dict models. -/

/-- Membership after adding one element to a modeled set. -/
theorem mem_setAdd {s : List String} {x y : String} :
    y ∈ setAdd s x ↔ y ∈ s ∨ y = x := by
  unfold setAdd
  split
  · next h =>
    constructor
    · exact Or.inl
    · rintro (hy | rfl)
      · exact hy
      · exact h
  · next h => simp

/-- Membership after a `set.update`. -/
theorem mem_setUpdate (xs : List String) : ∀ (s : List String) (y : String),
    y ∈ setUpdate s xs ↔ y ∈ s ∨ y ∈ xs := by
  induction xs with
  | nil => intro s y; simp [setUpdate]
  | cons x xs ih =>
    intro s y
    simp only [setUpdate]
    rw [ih]
    simp [mem_setAdd, or_assoc]

/-- Keys after a dict update: the updated key joins the key set. -/
theorem mem_keys_dictUpdate (k : String) (xs : List String) : ∀ (d : Dict) (p : String),
    p ∈ (dictUpdate d k xs).map Prod.fst ↔ p ∈ d.map Prod.fst ∨ p = k := by
  intro d
  induction d with
  | nil => intro p; simp [dictUpdate]
  | cons e rest ih =>
    intro p
    obtain ⟨k2, s⟩ := e
    simp only [dictUpdate]
    split
    · next h => subst h; simp; tauto
    · next h =>
      simp only [List.map_cons, List.mem_cons]
      rw [ih]
      tauto

/-- A dict update keeps every recorded partner reachable: if `b` already sits
in `a`'s set, it still does afterwards. -/
theorem dictUpdate_preserves (k : String) (xs : List String) :
    ∀ (d : Dict) (a b : String) (s : List String),
    (a, s) ∈ d → b ∈ s → ∃ t, (a, t) ∈ dictUpdate d k xs ∧ b ∈ t := by
  intro d
  induction d with
  | nil => intro a b s h; exact absurd h (List.not_mem_nil _)
  | cons e rest ih =>
    intro a b s h hb
    obtain ⟨k2, s2⟩ := e
    simp only [dictUpdate]
    split
    · next hk =>
      rcases List.mem_cons.mp h with heq | htail
      · injection heq with ha hs
        subst ha
        subst hs
        refine ⟨setUpdate s xs, List.mem_cons_self .., ?_⟩
        rw [mem_setUpdate]
        exact Or.inl hb
      · exact ⟨s, List.mem_cons_of_mem _ htail, hb⟩
    · next hk =>
      rcases List.mem_cons.mp h with heq | htail
      · exact ⟨s, List.mem_cons.mpr (Or.inl heq), hb⟩
      · obtain ⟨t, ht, hbt⟩ := ih a b s htail hb
        exact ⟨t, List.mem_cons_of_mem _ ht, hbt⟩

/-- A dict update records every element of the update list under the key. -/
theorem dictUpdate_self (k : String) (xs : List String) :
    ∀ (d : Dict) (b : String), b ∈ xs → ∃ t, (k, t) ∈ dictUpdate d k xs ∧ b ∈ t := by
  intro d
  induction d with
  | nil =>
    intro b hb
    refine ⟨setUpdate [] xs, by simp [dictUpdate], ?_⟩
    rw [mem_setUpdate]
    exact Or.inr hb
  | cons e rest ih =>
    intro b hb
    obtain ⟨k2, s2⟩ := e
    simp only [dictUpdate]
    split
    · next hk =>
      subst hk
      refine ⟨setUpdate s2 xs, List.mem_cons_self .., ?_⟩
      rw [mem_setUpdate]
      exact Or.inr hb
    · next hk =>
      obtain ⟨t, ht, hbt⟩ := ih b hb
      exact ⟨t, List.mem_cons_of_mem _ ht, hbt⟩

/-- The no-self-membership invariant of the relationship dict survives an
update whose key is absent from the update list. -/
theorem dictUpdate_inv (k : String) (xs : List String) :
    ∀ (d : Dict), (∀ e ∈ d, e.1 ∉ e.2) → k ∉ xs →
    ∀ e ∈ dictUpdate d k xs, e.1 ∉ e.2 := by
  intro d
  induction d with
  | nil =>
    intro _ hk e he
    simp only [dictUpdate, List.mem_singleton] at he
    subst he
    intro hmem
    rcases (mem_setUpdate xs [] k).mp hmem with h | h
    · exact absurd h (List.not_mem_nil _)
    · exact hk h
  | cons e0 rest ih =>
    intro hd hk e he
    obtain ⟨k2, s2⟩ := e0
    simp only [dictUpdate] at he
    split at he
    · next heq =>
      subst heq
      rcases List.mem_cons.mp he with rfl | htail
      · intro hmem
        rcases (mem_setUpdate xs s2 k2).mp hmem with h | h
        · exact hd (k2, s2) (List.mem_cons_self ..) h
        · exact hk h
      · exact hd e (List.mem_cons_of_mem _ htail)
    · next heq =>
      rcases List.mem_cons.mp he with rfl | htail
      · exact hd (k2, s2) (List.mem_cons_self ..)
      · exact ih (fun e2 he2 => hd e2 (List.mem_cons_of_mem _ he2)) hk e htail

/-- Membership after inserting one canonical pair. -/
theorem mem_insertPair {acc : List (String × String)} {p q : String × String} :
    q ∈ insertPair acc p ↔ q ∈ acc ∨ q = p := by
  unfold insertPair
  split
  · next h =>
    constructor
    · exact Or.inl
    · rintro (hq | rfl)
      · exact hq
      · exact h
  · next h => simp

/-- Inserting one pair keeps the pair list duplicate-free. -/
theorem nodup_insertPair {acc : List (String × String)} {p : String × String}
    (h : acc.Nodup) : (insertPair acc p).Nodup := by
  unfold insertPair
  split
  · exact h
  · next hp => simp [List.nodup_append, h, hp]

/-- Membership after inserting one person's canonical pairs. -/
theorem mem_insertPairs (name : String) (bs : List String) :
    ∀ (acc : List (String × String)) (q : String × String),
    q ∈ insertPairs name acc bs ↔ q ∈ acc ∨ ∃ b ∈ bs, q = sortPair name b := by
  induction bs with
  | nil => intro acc q; simp [insertPairs]
  | cons b bs ih =>
    intro acc q
    simp only [insertPairs]
    rw [ih]
    simp only [mem_insertPair, List.mem_cons]
    constructor
    · rintro ((hq | rfl) | ⟨b2, hb2, rfl⟩)
      · exact Or.inl hq
      · exact Or.inr ⟨b, Or.inl rfl, rfl⟩
      · exact Or.inr ⟨b2, Or.inr hb2, rfl⟩
    · rintro (hq | ⟨b2, hb2 | hb2, rfl⟩)
      · exact Or.inl (Or.inl hq)
      · subst hb2; exact Or.inl (Or.inr rfl)
      · exact Or.inr ⟨b2, hb2, rfl⟩

/-- Inserting one person's canonical pairs keeps the list duplicate-free. -/
theorem nodup_insertPairs (name : String) (bs : List String) :
    ∀ (acc : List (String × String)), acc.Nodup → (insertPairs name acc bs).Nodup := by
  induction bs with
  | nil => intro acc h; exact h
  | cons b bs ih => intro acc h; exact ih _ (nodup_insertPair h)

/-- Membership in the accumulated unique-pair list. -/
theorem mem_uniqueAux (d : Dict) :
    ∀ (acc : List (String × String)) (q : String × String),
    q ∈ uniqueAux acc d ↔ q ∈ acc ∨ ∃ e ∈ d, ∃ b ∈ e.2, q = sortPair e.1 b := by
  induction d with
  | nil => intro acc q; simp [uniqueAux]
  | cons e rest ih =>
    intro acc q
    obtain ⟨k, s⟩ := e
    simp only [uniqueAux]
    rw [ih]
    simp only [mem_insertPairs, List.mem_cons]
    constructor
    · rintro ((hq | ⟨b, hb, rfl⟩) | ⟨e2, he2, b, hb, rfl⟩)
      · exact Or.inl hq
      · exact Or.inr ⟨(k, s), Or.inl rfl, b, hb, rfl⟩
      · exact Or.inr ⟨e2, Or.inr he2, b, hb, rfl⟩
    · rintro (hq | ⟨e2, he2 | he2, b, hb, rfl⟩)
      · exact Or.inl (Or.inl hq)
      · subst he2; exact Or.inl (Or.inr ⟨b, hb, rfl⟩)
      · exact Or.inr ⟨e2, he2, b, hb, rfl⟩

/-- The accumulated unique-pair list stays duplicate-free. -/
theorem nodup_uniqueAux (d : Dict) :
    ∀ (acc : List (String × String)), acc.Nodup → (uniqueAux acc d).Nodup := by
  induction d with
  | nil => intro acc h; exact h
  | cons e rest ih =>
    intro acc h
    obtain ⟨k, s⟩ := e
    exact ih _ (nodup_insertPairs k s acc h)

/-- The `unique_relationships` set contains no duplicates. -/
theorem nodup_uniqueRelationships (d : Dict) : (uniqueRelationships d).Nodup :=
  nodup_uniqueAux d [] List.nodup_nil

/-- Every recorded unique pair is canonical (sorted). -/
theorem uniqueRelationships_sorted (d : Dict) (q : String × String)
    (hq : q ∈ uniqueRelationships d) : strLe q.1 q.2 = true := by
  rcases (mem_uniqueAux d [] q).mp hq with h | ⟨e, _, b, _, rfl⟩
  · exact absurd h (List.not_mem_nil _)
  · exact sortPair_le e.1 b

/-- C3: at the 100% band (as at any band the extractor succeeds on), the
underlying pair set holds each unordered pair exactly once: the list is
duplicate-free, every entry is the canonical lexicographically sorted pair,
and a pair together with its mirror can only occur for a diagonal pair. -/
theorem claim_C3 (df : DataFrame) (nz : List (String × List String))
    (pairs : List (String × String)) (h : pairsOf df nz 100 = .ok pairs) :
    pairs.Nodup ∧ (∀ q ∈ pairs, strLe q.1 q.2 = true) ∧
    ∀ a b, (a, b) ∈ pairs → (b, a) ∈ pairs → a = b := by
  simp only [pairsOf] at h
  cases hb : buildDict df 100 nz [] with
  | error e => rw [hb] at h; exact absurd h (by simp)
  | ok d =>
    rw [hb] at h
    injection h with h
    subst h
    refine ⟨nodup_uniqueRelationships d, fun q hq => uniqueRelationships_sorted d q hq, ?_⟩
    intro a b h1 h2
    exact strLe_antisymm a b (uniqueRelationships_sorted d _ h1) (uniqueRelationships_sorted d _ h2)

/-- Witness for C3 at the spec's scenario input. -/
theorem claim_C3_witness :
    List.Nodup [("Alice", "Bob"), ("Alice", "Cara"), ("Alice", "Dan")] :=
  (claim_C3 df1 nz1 _ (by decide)).1

/-- One row step keeps the no-self-membership invariant of the relationship
dict, as long as the person's name occurs at most once in each scanned
cell's parsed token list. -/
theorem scanName_inv (pct : Int) (name : String) :
    ∀ (rows : List (String × String)) (d d2 : Dict),
    (∀ e ∈ d, e.1 ∉ e.2) →
    (∀ r ∈ rows, (parseRelated r.2).count name ≤ 1) →
    scanName pct name rows d = .ok d2 →
    ∀ e ∈ d2, e.1 ∉ e.2 := by
  intro rows
  induction rows with
  | nil =>
    intro d d2 hinv _ h
    injection h with h
    subst h
    exact hinv
  | cons r rest ih =>
    intro d d2 hinv hcnt h
    obtain ⟨percent, related⟩ := r
    simp only [scanName] at h
    cases hb : bandParse percent with
    | none => rw [hb] at h; exact absurd h (by simp)
    | some v =>
      rw [hb] at h
      simp only at h
      have hname : name ∉ (parseRelated related).erase name := by
        have hc := hcnt (percent, related) (List.mem_cons_self ..)
        dsimp only at hc
        have he := List.count_erase_self name (parseRelated related)
        exact List.count_eq_zero.mp (by omega)
      refine ih _ d2 ?_ (fun r hr => hcnt r (List.mem_cons_of_mem _ hr)) h
      split
      · split
        · exact hinv
        · exact dictUpdate_inv name _ d hinv hname
      · exact hinv

/-- The per-sign person loop keeps the no-self-membership invariant. -/
theorem scanNames_inv (pct : Int) (rows : List (String × String)) :
    ∀ (names : List String) (d d2 : Dict),
    (∀ e ∈ d, e.1 ∉ e.2) →
    (∀ n ∈ names, ∀ r ∈ rows, (parseRelated r.2).count n ≤ 1) →
    scanNames pct rows names d = .ok d2 →
    ∀ e ∈ d2, e.1 ∉ e.2 := by
  intro names
  induction names with
  | nil =>
    intro d d2 hinv _ h
    injection h with h
    subst h
    exact hinv
  | cons n ns ih =>
    intro d d2 hinv hcnt h
    simp only [scanNames] at h
    cases hs : scanName pct n rows d with
    | error e => rw [hs] at h; exact absurd h (by simp)
    | ok dmid =>
      rw [hs] at h
      have hmid := scanName_inv pct n rows d dmid hinv
        (fun r hr => hcnt n (List.mem_cons_self ..) r hr) hs
      exact ih dmid d2 hmid (fun m hm r hr => hcnt m (List.mem_cons_of_mem _ hm) r hr) h

/-- The registry loop keeps the no-self-membership invariant, given that no
person's name is duplicated inside any cell their sign scans. -/
theorem buildDict_inv (df : DataFrame) (pct : Int) :
    ∀ (nz : List (String × List String)) (d d2 : Dict),
    (∀ e ∈ d, e.1 ∉ e.2) →
    (∀ zn ∈ nz, ∀ cell ∈ (lookupList (colKey zn.1) df.cols).getD [],
      ∀ name ∈ zn.2, (parseRelated cell).count name ≤ 1) →
    buildDict df pct nz d = .ok d2 →
    ∀ e ∈ d2, e.1 ∉ e.2 := by
  intro nz
  induction nz with
  | nil =>
    intro d d2 hinv _ h
    injection h with h
    subst h
    exact hinv
  | cons zn rest ih =>
    intro d d2 hinv hcnt h
    obtain ⟨zodiac, names⟩ := zn
    simp only [buildDict] at h
    cases hl : lookupList (colKey zodiac) df.cols with
    | none =>
      rw [hl] at h
      exact ih d d2 hinv (fun z hz => hcnt z (List.mem_cons_of_mem _ hz)) h
    | some cells =>
      rw [hl] at h
      simp only at h
      cases hs : scanNames pct (df.index.zip cells) names d with
      | error e => rw [hs] at h; exact absurd h (by simp)
      | ok dmid =>
        rw [hs] at h
        have hcells := hcnt (zodiac, names) (List.mem_cons_self ..)
        rw [hl] at hcells
        dsimp only [Option.getD] at hcells
        have hmid := scanNames_inv pct (df.index.zip cells) names d dmid hinv
          (fun n hn r hr => hcells r.2 (List.of_mem_zip hr).2 n hn) hs
        exact ih dmid d2 hmid (fun z hz => hcnt z (List.mem_cons_of_mem _ hz)) h

/-- C2 (amended): no person is ever paired with themself, provided their
name occurs at most once in the parsed token list of each cell their sign's
column scans; the code removes exactly one occurrence of the person's own
name, so only a cell echoing the name twice can create a self-pair. -/
theorem claim_C2 (df : DataFrame) (nz : List (String × List String)) (pct : Int)
    (pairs : List (String × String)) (hnd : noDupTokens df nz = true)
    (h : pairsOf df nz pct = .ok pairs) (p : String) : (p, p) ∉ pairs := by
  simp only [noDupTokens, List.all_eq_true, decide_eq_true_eq] at hnd
  simp only [pairsOf] at h
  cases hb : buildDict df pct nz [] with
  | error e => rw [hb] at h; exact absurd h (by simp)
  | ok d =>
    rw [hb] at h
    injection h with h
    subst h
    have hinv := buildDict_inv df pct nz [] d (by simp)
      (fun zn hz cell hc name hn => hnd zn hz cell hc name hn) hb
    intro hmem
    rcases (mem_uniqueAux d [] _).mp hmem with hacc | ⟨e, he, b, hb2, heq⟩
    · exact absurd hacc (List.not_mem_nil _)
    · obtain ⟨h1, h2⟩ := sortPair_eq_diag e.1 b p heq.symm
      exact hinv e he (h1 ▸ h2 ▸ hb2)

/-- Witness for C2 at the spec's scenario input (which satisfies the
duplicate-freeness side condition). -/
theorem claim_C2_witness :
    ("Alice", "Alice") ∉ [("Alice", "Bob"), ("Alice", "Cara"), ("Alice", "Dan")] :=
  claim_C2 df1 nz1 100 _ (by decide) (by decide) "Alice"

/-- A malformed label among the scanned rows makes the row scan fail. -/
theorem scanName_err (pct : Int) (name lbl cell : String) :
    ∀ (rows : List (String × String)) (d : Dict), (lbl, cell) ∈ rows →
    bandParse lbl = none → isError (scanName pct name rows d) = true := by
  intro rows
  induction rows with
  | nil => intro d h; exact absurd h (List.not_mem_nil _)
  | cons r rest ih =>
    intro d hmem hbad
    obtain ⟨p0, r0⟩ := r
    simp only [scanName]
    cases hb : bandParse p0 with
    | none => rfl
    | some v =>
      rcases List.mem_cons.mp hmem with heq | htail
      · injection heq with h1 h2
        subst h1
        rw [hbad] at hb
        exact absurd hb (by simp)
      · simp only
        exact ih _ htail hbad

/-- A malformed label among the scanned rows makes the whole per-sign person
loop fail as soon as there is at least one person to scan with. -/
theorem scanNames_err (pct : Int) (rows : List (String × String)) (n lbl cell : String)
    (ns : List String) (d : Dict) (hmem : (lbl, cell) ∈ rows)
    (hbad : bandParse lbl = none) :
    isError (scanNames pct rows (n :: ns) d) = true := by
  simp only [scanNames]
  cases hs : scanName pct n rows d with
  | error e => rfl
  | ok dmid =>
    have := scanName_err pct n lbl cell rows d hmem hbad
    rw [hs] at this
    exact absurd this (by simp [isError])

/-- A malformed label in a column that some nonempty-peopled registry sign
scans makes the whole registry loop fail. -/
theorem buildDict_err (df : DataFrame) (pct : Int) (zodiac n lbl cell : String)
    (ns : List String) (cells : List String) :
    ∀ (nz : List (String × List String)) (d : Dict),
    (zodiac, n :: ns) ∈ nz →
    lookupList (colKey zodiac) df.cols = some cells →
    (lbl, cell) ∈ df.index.zip cells →
    bandParse lbl = none →
    isError (buildDict df pct nz d) = true := by
  intro nz
  induction nz with
  | nil => intro d h; exact absurd h (List.not_mem_nil _)
  | cons zn rest ih =>
    intro d hmem hcol hrow hbad
    obtain ⟨z0, names0⟩ := zn
    simp only [buildDict]
    cases hl : lookupList (colKey z0) df.cols with
    | none =>
      rcases List.mem_cons.mp hmem with heq | htail
      · injection heq with h1 h2
        subst h1
        rw [hcol] at hl
        exact absurd hl (by simp)
      · simp only
        exact ih d htail hcol hrow hbad
    | some cells0 =>
      simp only
      cases hs : scanNames pct (df.index.zip cells0) names0 d with
      | error e => rfl
      | ok dmid =>
        rcases List.mem_cons.mp hmem with heq | htail
        · injection heq with h1 h2
          subst h1
          subst h2
          rw [hcol] at hl
          injection hl with hl
          subst hl
          have := scanNames_err pct (df.index.zip cells) n lbl cell ns d hrow hbad
          rw [hs] at this
          exact absurd this (by simp [isError])
        · exact ih dmid htail hcol hrow hbad

/-- C4 (amended): band matching drops the label's final character and parses
the remainder as a Python integer.  If that parse fails for a label scanned
during extraction, the `ValueError` surfaces to the caller; and a label of
the form `<signed integer>%` always matches by its exact integer value.  (A
label not ending in `%` is not rejected, as the counterexample shows: its
truncated text's integer value is used.) -/
theorem claim_C4 :
    (∀ (df : DataFrame) (nz : List (String × List String)) (pct : Int) (rt : String)
      (zodiac n lbl cell : String) (ns : List String) (cells : List String),
      (zodiac, n :: ns) ∈ nz →
      lookupList (colKey zodiac) df.cols = some cells →
      (lbl, cell) ∈ df.index.zip cells →
      bandParse lbl = none →
      isError (generate_relationship_summary df nz pct rt) = true) ∧
    (∀ (s : String) (n : Int), pyInt s = some n → bandParse (s ++ "%") = some n) := by
  constructor
  · intro df nz pct rt zodiac n lbl cell ns cells hmem hcol hrow hbad
    have hb := buildDict_err df pct zodiac n lbl cell ns cells nz [] hmem hcol hrow hbad
    simp only [generate_relationship_summary, pairsOf]
    cases hd : buildDict df pct nz [] with
    | error e => rfl
    | ok d =>
      rw [hd] at hb
      exact absurd hb (by simp [isError])
  · intro s n h
    have hdata : (s ++ "%").data = s.data ++ ['%'] := String.data_append s "%"
    show pyInt (strDropLast (s ++ "%")) = some n
    unfold strDropLast
    rw [hdata, List.dropLast_concat]
    exact h

/-- Witness for C4: the label `"abc%"` is unparseable and reached, so the
extractor errors; and the well-formed label text `"100"` with the percent
sign matches by its exact value 100. -/
theorem claim_C4_witness :
    isError (generate_relationship_summary dfB nz4 100 "kamarád") = true ∧
    bandParse ("100" ++ "%") = some 100 :=
  ⟨claim_C4.1 dfB nz4 100 "kamarád" "beran" "Alice" "abc%" "Bob" [] ["Bob"]
      (by decide) (by decide) (by decide) (by decide),
    claim_C4.2 "100" 100 (by decide)⟩

/-- On a matrix with no sign columns the registry loop finds no column and
leaves the dict untouched. -/
theorem buildDict_no_cols (df : DataFrame) (pct : Int) (hcols : df.cols = []) :
    ∀ (nz : List (String × List String)) (d : Dict), buildDict df pct nz d = .ok d := by
  intro nz
  induction nz with
  | nil => intro d; rfl
  | cons zn rest ih =>
    intro d
    obtain ⟨zodiac, names⟩ := zn
    simp only [buildDict, hcols, lookupList]
    exact ih d

/-- C8: an all-empty Fetcher result (the empty per-sign mapping) raises no
error anywhere in the pipeline: the built matrix has no sign columns, and
the extractor returns the empty summary at every band and relationship
type. -/
theorem claim_C8 (percentages : List String) (nz : List (String × List String))
    (pct : Int) (rt : String) :
    (format_compatibility_data [] percentages nz).cols = [] ∧
    generate_relationship_summary (format_compatibility_data [] percentages nz) nz pct rt =
      .ok "" := by
  refine ⟨rfl, ?_⟩
  simp only [generate_relationship_summary, pairsOf]
  rw [buildDict_no_cols _ pct rfl nz []]
  rfl

/-- An unmatched token (no registry key, or an empty person list) contributes
nothing to the matched-group list, wherever it sits among the tokens. -/
theorem formatTokens_skip (nz : List (String × List String)) (t : String)
    (ht : lookupList (pyLower (pyStrip t)) nz = none ∨
          lookupList (pyLower (pyStrip t)) nz = some []) :
    ∀ (pre post : List String),
    formatTokens nz (pre ++ t :: post) = formatTokens nz (pre ++ post) := by
  intro pre
  induction pre with
  | nil =>
    intro post
    simp only [List.nil_append, formatTokens]
    rcases ht with h | h
    · rw [h]
    · rw [h]
      simp
  | cons p ps ih =>
    intro post
    simp only [List.cons_append, formatTokens]
    cases hl : lookupList (pyLower (pyStrip p)) nz with
    | none => exact ih post
    | some ns =>
      dsimp only
      simp only [List.append_eq]
      rw [ih post]

/-- A registry sign whose column key is absent from the matrix leaves the
whole registry loop unchanged, wherever it sits in the registry. -/
theorem buildDict_skip (df : DataFrame) (pct : Int) (zodiac : String)
    (names : List String) (hcol : lookupList (colKey zodiac) df.cols = none) :
    ∀ (pre post : List (String × List String)) (d : Dict),
    buildDict df pct (pre ++ (zodiac, names) :: post) d = buildDict df pct (pre ++ post) d := by
  intro pre
  induction pre with
  | nil =>
    intro post d
    simp only [List.nil_append, buildDict, hcol]
  | cons zn ps ih =>
    intro post d
    obtain ⟨z0, names0⟩ := zn
    simp only [List.cons_append, buildDict]
    cases hl : lookupList (colKey z0) df.cols with
    | none => exact ih post d
    | some cells =>
      simp only
      cases hs : scanNames pct (df.index.zip cells) names0 d with
      | error e => rfl
      | ok dmid => exact ih post dmid

/-- C7: unknown or empty-valued tokens are silently dropped by the matrix
builder (the cell is computed as if the token were absent, with no error),
and a registry sign whose normalized capitalized form is not a matrix column
contributes no relationships to the extractor, again with no error. -/
theorem claim_C7 :
    (∀ (nz : List (String × List String)) (v t : String) (pre post : List String),
      splitComma v = pre ++ t :: post →
      (lookupList (pyLower (pyStrip t)) nz = none ∨
       lookupList (pyLower (pyStrip t)) nz = some []) →
      formatCell nz v = joinSep ", " (formatTokens nz (pre ++ post))) ∧
    (∀ (df : DataFrame) (zodiac : String) (names : List String)
      (pre post : List (String × List String)) (pct : Int) (rt : String),
      lookupList (colKey zodiac) df.cols = none →
      generate_relationship_summary df (pre ++ (zodiac, names) :: post) pct rt =
        generate_relationship_summary df (pre ++ post) pct rt) := by
  constructor
  · intro nz v t pre post hsplit ht
    unfold formatCell
    rw [hsplit, formatTokens_skip nz t ht pre post]
  · intro df zodiac names pre post pct rt hcol
    simp only [generate_relationship_summary, pairsOf]
    rw [buildDict_skip df pct zodiac names hcol pre post []]

/-- Witness for C7: the unknown token `" byk"` in the scenario registry is
dropped from a cell, and prepending a `byk` entry (no matching column in the
scenario matrix) to the registry leaves the extractor output unchanged. -/
theorem claim_C7_witness :
    formatCell nz1 "lev, byk" = joinSep ", " (formatTokens nz1 (["lev"] ++ [])) ∧
    generate_relationship_summary df1 ([] ++ ("byk", ["Zed"]) :: nz1) 100 "kamarád" =
      generate_relationship_summary df1 ([] ++ nz1) 100 "kamarád" :=
  ⟨claim_C7.1 nz1 "lev, byk" " byk" ["lev"] [] (by decide) (Or.inl (by decide)),
    claim_C7.2 df1 "byk" ["Zed"] [] nz1 100 "kamarád" (by decide)⟩

/-- Keys of the accumulated aggregation: exactly the original keys plus the
first components of the processed pairs. -/
theorem mem_keys_aggregateAux (pairs : List (String × String)) :
    ∀ (acc : Dict) (p : String),
    p ∈ (aggregateAux acc pairs).map Prod.fst ↔
      p ∈ acc.map Prod.fst ∨ ∃ q, (p, q) ∈ pairs := by
  induction pairs with
  | nil => intro acc p; simp [aggregateAux]
  | cons pr rest ih =>
    intro acc p
    obtain ⟨a, b⟩ := pr
    simp only [aggregateAux]
    rw [ih]
    rw [mem_keys_dictUpdate]
    constructor
    · rintro ((hacc | rfl) | ⟨q, hq⟩)
      · exact Or.inl hacc
      · exact Or.inr ⟨b, List.mem_cons_self ..⟩
      · exact Or.inr ⟨q, List.mem_cons_of_mem _ hq⟩
    · rintro (hacc | ⟨q, hq⟩)
      · exact Or.inl (Or.inl hacc)
      · rcases List.mem_cons.mp hq with heq | htail
        · injection heq with h1 h2
          exact Or.inl (Or.inr h1)
        · exact Or.inr ⟨q, htail⟩

/-- A partner already recorded in the accumulator stays reachable through
the rest of the aggregation. -/
theorem aggregateAux_mono (pairs : List (String × String)) :
    ∀ (acc : Dict) (a b : String),
    (∃ s, (a, s) ∈ acc ∧ b ∈ s) →
    ∃ s, (a, s) ∈ aggregateAux acc pairs ∧ b ∈ s := by
  induction pairs with
  | nil => intro acc a b h; exact h
  | cons pr rest ih =>
    intro acc a b h
    obtain ⟨x, y⟩ := pr
    obtain ⟨s, hs, hb⟩ := h
    exact ih _ a b (dictUpdate_preserves x [y] acc a b s hs hb)

/-- Every processed pair's second component is recorded under its first
component. -/
theorem aggregateAux_partner (pairs : List (String × String)) :
    ∀ (acc : Dict) (a b : String), (a, b) ∈ pairs →
    ∃ s, (a, s) ∈ aggregateAux acc pairs ∧ b ∈ s := by
  induction pairs with
  | nil => intro acc a b h; exact absurd h (List.not_mem_nil _)
  | cons pr rest ih =>
    intro acc a b h
    obtain ⟨x, y⟩ := pr
    rcases List.mem_cons.mp h with heq | htail
    · injection heq with h1 h2
      subst h1
      subst h2
      exact aggregateAux_mono rest _ a b (dictUpdate_self a [b] acc b (by simp))
    · exact ih _ a b htail

/-- C9: aggregation groups each deduplicated pair under its first (for the
extractor's canonical pairs: lexicographically smaller) member only — a
person anchors a line exactly when they are the first member of at least one
pair, and every pair's second member is visible inside its first member's
partner set. -/
theorem claim_C9 (pairs : List (String × String)) (p : String) :
    (p ∈ (aggregateRelationships pairs).map Prod.fst ↔ ∃ q, (p, q) ∈ pairs) ∧
    (∀ a b, (a, b) ∈ pairs → ∃ s, (a, s) ∈ aggregateRelationships pairs ∧ b ∈ s) := by
  constructor
  · rw [aggregateRelationships, mem_keys_aggregateAux]
    simp
  · intro a b hab
    exact aggregateAux_partner pairs [] a b hab

/-- Witness for C9 on a concrete pair list: `Alice` anchors, and `Bob` is
recorded inside Alice's partner set. -/
theorem claim_C9_witness :
    ("Alice" ∈ (aggregateRelationships [("Alice", "Bob")]).map Prod.fst ↔
      ∃ q, ("Alice", q) ∈ [("Alice", "Bob")]) ∧
    ∃ s, ("Alice", s) ∈ aggregateRelationships [("Alice", "Bob")] ∧ "Bob" ∈ s :=
  ⟨(claim_C9 [("Alice", "Bob")] "Alice").1,
    (claim_C9 [("Alice", "Bob")] "Alice").2 "Alice" "Bob" (by decide)⟩

/-- The builder's accumulator loop over one cell's tokens computes exactly
the spec's matched-group list. -/
theorem formatTokens_eq_spec (nz : List (String × List String)) :
    ∀ toks, formatTokens nz toks = specMatchedGroups nz toks := by
  intro toks
  induction toks with
  | nil => rfl
  | cons t ts ih =>
    simp only [formatTokens, specMatchedGroups, List.filterMap_cons] at ih ⊢
    cases hl : lookupList (pyLower (pyStrip t)) nz with
    | none => exact ih
    | some ns =>
      dsimp only
      by_cases hns : ns = []
      · simp [hns, ih]
      · simp [hns, ih]

/-- One cell of the builder equals the spec's cell value. -/
theorem formatCell_eq_spec (nz : List (String × List String)) (v : String) :
    formatCell nz v = specCellValue nz v := by
  unfold formatCell specCellValue
  rw [formatTokens_eq_spec]

/-- Setting a fresh key on a dict appends the entry. -/
theorem dictSet_append {α : Type} (k : String) (v : α) :
    ∀ (acc : List (String × α)), k ∉ acc.map Prod.fst → dictSet acc k v = acc ++ [(k, v)] := by
  intro acc
  induction acc with
  | nil => intro _; rfl
  | cons e rest ih =>
    intro hk
    obtain ⟨k2, v2⟩ := e
    simp only [List.map_cons, List.mem_cons] at hk
    push_neg at hk
    simp only [dictSet]
    rw [if_neg (fun h => hk.1 h.symm)]
    rw [ih hk.2]
    simp

/-- With pairwise distinct capitalized keys the column loop is a plain map
appended to the accumulator. -/
theorem buildCols_eq_map (nz : List (String × List String)) :
    ∀ (hd acc : List (String × List String)),
    (hd.map (fun sv => pyCapitalize sv.1)).Nodup →
    (∀ sv ∈ hd, pyCapitalize sv.1 ∉ acc.map Prod.fst) →
    buildCols nz acc hd =
      acc ++ hd.map (fun sv => (pyCapitalize sv.1, sv.2.map (formatCell nz))) := by
  intro hd
  induction hd with
  | nil => intro acc _ _; simp [buildCols]
  | cons sv rest ih =>
    intro acc hnd hks
    obtain ⟨sign, values⟩ := sv
    simp only [List.map_cons, List.nodup_cons] at hnd
    simp only [buildCols]
    rw [dictSet_append _ _ acc (hks (sign, values) (List.mem_cons_self ..))]
    rw [ih (acc ++ [(pyCapitalize sign, values.map (formatCell nz))]) hnd.2 ?_]
    · simp
    · intro sv2 hsv2
      simp only [List.map_append, List.mem_append]
      push_neg
      constructor
      · exact hks sv2 (List.mem_cons_of_mem _ hsv2)
      · intro hmem
        simp only [List.map_cons, List.map_nil, List.mem_singleton] at hmem
        exact hnd.1 (hmem ▸ List.mem_map_of_mem (fun sv => pyCapitalize sv.1) hsv2)

/-- A comma-free character run splits into a single piece. -/
theorem splitCommaAux_no_comma : ∀ (l acc : List Char), (∀ c ∈ l, c ≠ ',') →
    splitCommaAux l acc = [⟨acc.reverse ++ l⟩] := by
  intro l
  induction l with
  | nil => intro acc _; simp [splitCommaAux]
  | cons c cs ih =>
    intro acc h
    simp only [splitCommaAux]
    rw [if_neg (h c (List.mem_cons_self ..))]
    rw [ih (c :: acc) (fun c2 hc2 => h c2 (List.mem_cons_of_mem _ hc2))]
    simp

/-- Stripping an all-whitespace string yields the empty string. -/
theorem pyStrip_all_whitespace (s : String) (h : ∀ c ∈ s.data, Char.isWhitespace c) :
    pyStrip s = "" := by
  unfold pyStrip
  have h1 : s.data.dropWhile Char.isWhitespace = [] := by
    rw [List.dropWhile_eq_nil_iff]
    intro c hc
    exact h c hc
  rw [h1]
  rfl

/-- C6: for every per-sign raw value list with pairwise distinct capitalized
sign keys (as the fixed 12 signs have) and positionally aligned rows, the
matrix builder produces one column per sign keyed by its capitalized
identifier, whose cells are exactly the spec's comma-joined matched name
groups in token order; and — the registry having no empty-string key — an
empty or whitespace-only raw cell yields the empty string, not an error. -/
theorem claim_C6 (hd : List (String × List String)) (percentages : List String)
    (nz : List (String × List String))
    (hnd : (hd.map (fun sv => pyCapitalize sv.1)).Nodup)
    (_hlen : ∀ sv ∈ hd, sv.2.length = percentages.length)
    (hempty : lookupList "" nz = none) :
    (format_compatibility_data hd percentages nz).index = percentages ∧
    (format_compatibility_data hd percentages nz).cols =
      hd.map (fun sv => (pyCapitalize sv.1, sv.2.map (specCellValue nz))) ∧
    ∀ raw, (∀ c ∈ raw.data, Char.isWhitespace c) →
      formatCell nz raw = "" ∧ specCellValue nz raw = "" := by
  refine ⟨rfl, ?_, ?_⟩
  · show buildCols nz [] hd = _
    rw [buildCols_eq_map nz hd [] hnd (by simp)]
    have hfc : formatCell nz = specCellValue nz := funext (formatCell_eq_spec nz)
    rw [hfc]
    simp
  · intro raw hws
    have hcell : specCellValue nz raw = "" := by
      have hsplit : splitComma raw = [raw] := by
        unfold splitComma
        rw [splitCommaAux_no_comma raw.data []
          (fun c hc heq => by rw [heq] at hc; exact absurd (hws ',' hc) (by decide))]
        cases raw with
        | mk l => simp
      unfold specCellValue specMatchedGroups
      rw [hsplit]
      simp only [List.filterMap_cons, List.filterMap_nil]
      rw [pyStrip_all_whitespace raw hws]
      have hlow : pyLower "" = "" := rfl
      rw [hlow, hempty]
      rfl
    exact ⟨by rw [formatCell_eq_spec, hcell], hcell⟩

/-- Witness for C6 at the spec's scenario input. -/
theorem claim_C6_witness :
    (format_compatibility_data hd1 PERCENTAGES nz1).cols =
      hd1.map (fun sv => (pyCapitalize sv.1, sv.2.map (specCellValue nz1))) :=
  (claim_C6 hd1 PERCENTAGES nz1 (by decide) (by decide) (by decide)).2.1

/-- A lookup succeeds exactly when some entry's key equals the query
string — the builder's `part in names_zodiacs` membership test is exact
string equality. -/
theorem lookup_isSome_iff {α : Type} (k : String) :
    ∀ d : List (String × α), (∃ v, lookupList k d = some v) ↔ ∃ e ∈ d, e.1 = k := by
  intro d
  induction d with
  | nil => simp [lookupList]
  | cons e rest ih =>
    obtain ⟨k2, v2⟩ := e
    simp only [lookupList]
    by_cases hk : k2 = k
    · subst hk
      simp
    · rw [if_neg hk, ih]
      constructor
      · rintro ⟨e2, he2, hke⟩
        exact ⟨e2, List.mem_cons_of_mem _ he2, hke⟩
      · rintro ⟨e2, he2, hke⟩
        rcases List.mem_cons.mp he2 with rfl | htail
        · exact absurd hke hk
        · exact ⟨e2, htail, hke⟩

/-- C10: the matrix builder matches every raw-cell token against the
registry by exact string equality after only trimming and lower-casing —
the lookup succeeds exactly when some registry key equals the normalized
token, with no diacritic removal applied to it.  Consequently, for every
token whose trimmed lower-cased form still carries a combining diacritic
(diacritic removal would change it, as with `"Býk"`) and every registry
keyed by diacritic-free forms (such as `byk`), the token never matches and
is dropped, contributing no names to the cell. -/
theorem claim_C10 :
    (∀ (nz : List (String × List String)) (t : String),
      (∃ v, lookupList (pyLower (pyStrip t)) nz = some v) ↔
        ∃ e ∈ nz, e.1 = pyLower (pyStrip t)) ∧
    (∀ (nz : List (String × List String)) (t : String) (pre post : List String),
      removeDiacritics (pyLower (pyStrip t)) ≠ pyLower (pyStrip t) →
      (∀ e ∈ nz, removeDiacritics e.1 = e.1) →
      lookupList (pyLower (pyStrip t)) nz = none ∧
      formatTokens nz (pre ++ t :: post) = formatTokens nz (pre ++ post)) := by
  constructor
  · intro nz t
    exact lookup_isSome_iff (pyLower (pyStrip t)) nz
  · intro nz t pre post hmark hkeys
    have hnone : lookupList (pyLower (pyStrip t)) nz = none := by
      cases hl : lookupList (pyLower (pyStrip t)) nz with
      | none => rfl
      | some v =>
        obtain ⟨e, he, hke⟩ := (lookup_isSome_iff (pyLower (pyStrip t)) nz).mp ⟨v, hl⟩
        exact absurd (hke ▸ hkeys e he) hmark
    exact ⟨hnone, formatTokens_skip nz t (Or.inl hnone) pre post⟩

/-- Witness for C10: the token `"Býk"` normalizes to `"býk"`, which still
carries its diacritic, so against the registry `nzX` (keyed by the
diacritic-free `"byk"`) the lookup fails and the token is dropped. -/
theorem claim_C10_witness :
    lookupList (pyLower (pyStrip "Býk")) nzX = none ∧
    formatTokens nzX ([] ++ "Býk" :: []) = formatTokens nzX ([] ++ []) :=
  claim_C10.2 nzX "Býk" [] [] (by decide) (by decide)
